import Mathlib

/-!
Verification development for the AutoSwig AST-pass pipeline
(src/script/AutoSwig/autoswig.py).

The Python source is shallowly embedded: Python strings are `List Char`
(identifiers handled by the tool are ASCII), pure string utilities become
Lean functions, the per-pass visit methods become pure functions from a
record of the AST-node attributes they read to the values they write
(file lines, accumulated state, return value), and Python exceptions
become `Except`/`Option` results.  The clang AST is externally owned
(spec section 6), so a node is modelled as a record of exactly the
attributes the pass reads from it.
-/

set_option linter.unusedVariables false

namespace AutoSwig

/-! ## Python string primitives (ASCII domain) -/

/-- Python `str.split(sep)` accumulator: collects the current piece in
reverse order. -/
def pySplitGo (sep : Char) (acc : List Char) : List Char → List (List Char)
  | [] => [acc.reverse]
  | c :: rest =>
    if c = sep then acc.reverse :: pySplitGo sep [] rest
    else pySplitGo sep (c :: acc) rest

/-- Python `str.split(sep)` for a one-character separator: `"a_b".split("_")
== ["a","b"]`, `"".split("_") == [""]`. -/
def pySplit (sep : Char) (cs : List Char) : List (List Char) :=
  pySplitGo sep [] cs

/-- Python `str.strip(chars)` for the single stripped character `c`:
removes every leading and trailing occurrence of `c`. -/
def pyStripChar (c : Char) (cs : List Char) : List Char :=
  ((cs.dropWhile (· = c)).reverse.dropWhile (· = c)).reverse

/-- Python `str.rstrip(chars)`: removes trailing characters that belong to
the set `set`. -/
def pyRstripSet (set : List Char) (cs : List Char) : List Char :=
  (cs.reverse.dropWhile (· ∈ set)).reverse

/-- Python `str.isupper()` on the ASCII domain: at least one cased (here:
alphabetic) character, and no cased character is lowercase. -/
def pyIsUpper (cs : List Char) : Bool :=
  cs.any Char.isAlpha && cs.all fun c => !c.isAlpha || c.isUpper

/-- Python `str.lower()` on the ASCII domain. -/
def pyLowerChars (cs : List Char) : List Char :=
  cs.map Char.toLower

/-- Python `str.lower()` on `String`. -/
def pyLower (s : String) : String :=
  ⟨pyLowerChars s.toList⟩

/-- Python `str.startswith` (kernel-reducible list version). -/
def pyStartsWith (s pre : String) : Bool :=
  pre.toList.isPrefixOf s.toList

/-- Python `str.endswith` (kernel-reducible list version). -/
def pyEndsWith (s suf : String) : Bool :=
  suf.toList.isSuffixOf s.toList

/-- Python slicing `s[n:]` (kernel-reducible list version). -/
def pyDrop (s : String) (n : Nat) : String :=
  ⟨s.toList.drop n⟩

/-! ## Identifier normalizer (autoswig.py lines 47-83) -/

/-- Accumulator loop of the no-underscore branch of `split_identifier`:
`acc` is the segment being collected; a new segment is started at every
uppercase character after the first character of the identifier, and each
finished segment is lowercased. -/
def splitNoUnderscoreGo (acc : List Char) : List Char → List (List Char)
  | [] => [pyLowerChars acc]
  | c :: rest =>
    if c.isUpper then pyLowerChars acc :: splitNoUnderscoreGo [c] rest
    else splitNoUnderscoreGo (acc ++ [c]) rest

/-- The no-underscore branch of `split_identifier` (the index loop at
lines 55-61): the empty identifier yields no segments. -/
def splitNoUnderscore : List Char → List (List Char)
  | [] => []
  | c :: rest => splitNoUnderscoreGo [c] rest

/-- `split_identifier` (lines 47-62): split on underscores when one is
present, otherwise split before every uppercase letter; every segment is
lowercased. -/
def split_identifier_chars (cs : List Char) : List (List Char) :=
  if cs.contains '_' then (pySplit '_' cs).map pyLowerChars
  else splitNoUnderscore cs

/-- `split_identifier` on `String` values. -/
def split_identifier (s : String) : List String :=
  (split_identifier_chars s.toList).map fun l => ⟨l⟩

/-- The capitalisation loop of `camel_case` (lines 78-79):
`part[0].upper() + part[1:]` for every part; an empty part raises
IndexError, modelled as `none`. -/
def capitalizeAll : List (List Char) → Option (List (List Char))
  | [] => some []
  | [] :: _ => none
  | (c :: t) :: rest => (capitalizeAll rest).map ((c.toUpper :: t) :: ·)

/-- The string path of `camel_case` (lines 66-82): strip underscores from
both ends, lowercase an all-uppercase underscore-free name, split it, and
capitalise every segment. -/
def camel_case_chars (cs0 : List Char) : Except String (List Char) :=
  let cs := pyStripChar '_' cs0
  let cs := if pyIsUpper cs && !(cs.contains '_') then pyLowerChars cs else cs
  match capitalizeAll (split_identifier_chars cs) with
  | none => .error "IndexError: string index out of range"
  | some parts => .ok parts.flatten

/-- The string path of `camel_case` on `String` values. -/
def camel_case_string (s : String) : Except String String :=
  (camel_case_chars s.toList).map fun l => ⟨l⟩

/-- The argument of `camel_case`: the function is documented (by its own
isinstance dispatch and ValueError message) to accept a raw string or a
pre-split list of segments. -/
inductive PyStrOrList where
  | str (s : String)
  | list (l : List String)
deriving DecidableEq, Repr

/-- `camel_case` (lines 65-83).  Line 66 executes `identifier.strip(..)`
before the isinstance dispatch, and Python lists have no `strip` method,
so every list (or tuple) argument raises AttributeError; only the string
branch is reachable. -/
def camel_case : PyStrOrList → Except String PyStrOrList
  | .list _ => .error "AttributeError: list object has no attribute strip"
  | .str s => (camel_case_string s).map .str

/-! ## Spec-side segmentation for the no-underscore branch

The spec words the no-underscore rule as: split at every
lowercase-to-uppercase boundary, a new segment starting at each uppercase
letter.  `specChunks` is that rule written as direct structural recursion
on the identifier (segments not yet lowercased). -/

/-- Boundary-splitting reading of the spec sentence: a new chunk starts
before every uppercase character that is not the first character. -/
def specChunks : List Char → List (List Char)
  | [] => []
  | [c] => [[c]]
  | c :: d :: rest =>
    match specChunks (d :: rest) with
    | [] => [[c]]
    | seg :: segs =>
      if d.isUpper then [c] :: seg :: segs else (c :: seg) :: segs

/-- Prepends `acc` to the head chunk of a chunk list unless that chunk
starts with an uppercase character (in which case `acc` is closed off as
its own chunk). -/
def glueChunk (acc : List Char) : List (List Char) → List (List Char)
  | [] => [acc]
  | [] :: segs => acc :: segs
  | (d :: t) :: segs =>
    if d.isUpper then acc :: (d :: t) :: segs else (acc ++ d :: t) :: segs

/-- Prepends `acc` to the first chunk of a chunk list. -/
def consFirst (acc : List Char) : List (List Char) → List (List Char)
  | [] => [acc]
  | x :: xs => (acc ++ x) :: xs

/-! ## Class hierarchy pass (DefineRefCountedPass, lines 214-255)

`parent_classes` is a dict from a class fully-qualified name to the set
of its direct-base fully-qualified names; it is modelled as an
association list (iteration order is dict insertion order).
`is_subclass_of` is the recursive reachability query of lines 228-238.
The Python recursion has no cycle guard and can diverge on cyclic input,
so the embedding carries an explicit fuel parameter: `none` models a
computation that exceeds the fuel (in Python: unbounded recursion), and
`PyRes.keyError` models the uncaught KeyError of line 231 when the
queried class is not a key of the dict. -/

/-- Result of one `is_subclass_of` call: a boolean, or the KeyError
raised at line 231 when `class_name` has no entry. -/
inductive PyRes where
  | ok (b : Bool)
  | keyError
deriving DecidableEq, Repr

/-- Dict lookup in `parent_classes` (first matching key). -/
def lookupBases : List (String × List String) → String → Option (List String)
  | [], _ => none
  | (k, v) :: rest, c => if k = c then some v else lookupBases rest c

/-- The `for subclass in subclasses` loop of lines 234-237: recurse into
every direct base that is itself a key of the dict, stopping at the first
`True`.  `recur` is the enclosing `is_subclass_of` at one fuel step less;
`isKey` is the `subclass in self.parent_classes` test. -/
def subclassLoop (recur : String → String → Option PyRes)
    (isKey : String → Bool) : List String → String → Option PyRes
  | [], _ => some (.ok false)
  | s :: rest, baseName =>
    if isKey s then
      match recur s baseName with
      | none => none
      | some (.ok true) => some (.ok true)
      | some (.ok false) => subclassLoop recur isKey rest baseName
      | some .keyError => some .keyError
    else subclassLoop recur isKey rest baseName

/-- `is_subclass_of` (lines 228-238) with explicit recursion fuel. -/
def is_subclass_of (m : List (String × List String)) :
    Nat → String → String → Option PyRes
  | 0, _, _ => none
  | fuel + 1, className, baseName =>
    if className = baseName then some (.ok true)
    else
      match lookupBases m className with
      | none => some .keyError
      | some subclasses =>
        if baseName ∈ subclasses then some (.ok true)
        else
          subclassLoop (is_subclass_of m fuel)
            (fun s => (lookupBases m s).isSome) subclasses baseName

/-- The reachability relation the claim describes: `class` reaches
`base` when they are equal, when `base` is a recorded direct base, or
when some recorded direct base transitively reaches `base`. -/
inductive Reaches (m : List (String × List String)) : String → String → Prop where
  | refl (c : String) : Reaches m c c
  | step (c s b : String) (bases : List String)
      (hl : lookupBases m c = some bases) (hmem : s ∈ bases)
      (hr : Reaches m s b) : Reaches m c b

/-- A ranking certificate for acyclicity of the recorded hierarchy: the
rank strictly drops along every edge the recursion can follow (from a
class with an entry to a direct base that also has an entry).  For the
finite maps the pass builds this is the standard topological-order
characterisation of a cycle-free hierarchy. -/
def HierRank (m : List (String × List String)) (rank : String → Nat) : Prop :=
  ∀ c s bases, lookupBases m c = some bases → s ∈ bases →
    (lookupBases m s).isSome = true → rank s < rank c

/-- The recorded hierarchy is acyclic: some ranking certifies it. -/
def AcyclicHier (m : List (String × List String)) : Prop :=
  ∃ rank, HierRank m rank

/-- The hierarchy A (root, no recorded bases) <- B <- C, as recorded by
the class-hierarchy pass: only B and C declare base specifiers, so only
they are keys. -/
def hierABC : List (String × List String) := [("C", ["B"]), ("B", ["A"])]

/-- Concatenation of written file fragments. -/
def joinStrings : List String → String
  | [] => ""
  | s :: rest => s ++ joinStrings rest

/-- On exit (lines 218-226) the pass writes one URHO3D_REFCOUNTED line
per recorded class that is a transitive subclass of Urho3D::RefCounted. -/
def refcounted_content (m : List (String × List String)) (fuel : Nat) : String :=
  joinStrings (m.map fun p =>
    if is_subclass_of m fuel p.1 "Urho3D::RefCounted" = some (.ok true) then
      "URHO3D_REFCOUNTED(" ++ p.1 ++ ");\n"
    else "")

/-- The `_refcounted.i` artifact after `on_end`: the file is opened,
written and closed, and is never unlinked, so it exists (possibly as a
zero-byte file) whatever its content. -/
def refcounted_final (m : List (String × List String)) (fuel : Nat) :
    Option String :=
  some (refcounted_content m fuel)

/-! ## Cursor, access and type kinds

Closed tags for the clang cursor and type kinds the embedded passes
inspect. -/

inductive CursorKind where
  | NAMESPACE
  | CLASS_DECL
  | STRUCT_DECL
  | ENUM_DECL
  | VAR_DECL
  | CXX_METHOD
  | FUNCTION_DECL
  | FIELD_DECL
  | ENUM_CONSTANT_DECL
  | CXX_BASE_SPECIFIER
  | INTEGER_LITERAL
  | FLOATING_LITERAL
  | UNEXPOSED_EXPR
  | PARM_DECL
  | TYPE_ALIAS_DECL
  | TRANSLATION_UNIT
deriving DecidableEq, Repr

inductive Access where
  | PUBLIC
  | PROTECTED
  | PRIVATE
deriving DecidableEq, Repr

/-- The traversal action passed to `visit`: entering or leaving the
subtree of a node. -/
inductive AstAction where
  | ENTER
  | LEAVE
deriving DecidableEq, Repr

inductive TypeKind where
  | VOID
  | BOOL
  | CHAR_U
  | UCHAR
  | CHAR16
  | CHAR32
  | USHORT
  | UINT
  | ULONG
  | ULONGLONG
  | UINT128
  | CHAR_S
  | SCHAR
  | SHORT
  | INT
  | LONG
  | LONGLONG
  | FLOAT
  | DOUBLE
  | NULLPTR
  | ENUM
  | RECORD
  | POINTER
deriving DecidableEq, Repr

/-- The builtin-kind-to-target-type dictionary of lines 18-44; a kind
missing from the dict raises KeyError at line 185, modelled as `none`. -/
def builtin_to_cs : TypeKind → Option String
  | .VOID => some "void"
  | .BOOL => some "bool"
  | .CHAR_U => some "byte"
  | .UCHAR => some "byte"
  | .USHORT => some "ushort"
  | .UINT => some "uint"
  | .ULONG => some "uint"
  | .ULONGLONG => some "ulong"
  | .CHAR_S => some "char"
  | .SCHAR => some "char"
  | .SHORT => some "short"
  | .INT => some "int"
  | .LONG => some "int"
  | .LONGLONG => some "long"
  | .FLOAT => some "float"
  | .DOUBLE => some "double"
  | .NULLPTR => some "null"
  | _ => none

/-- Modelled from the spec: `is_builtin_type` lives in the external
walkcpp.utils package (its source is not under src); per spec section
4.3 the constant pass treats builtin numeric/boolean/char/null types as
extractable, identified here by the canonical clang type kind. -/
def is_builtin_type (tk : TypeKind) : Bool :=
  match tk with
  | .VOID | .BOOL | .CHAR_U | .UCHAR | .CHAR16 | .CHAR32 | .USHORT | .UINT
  | .ULONG | .ULONGLONG | .UINT128 | .CHAR_S | .SCHAR | .SHORT | .INT
  | .LONG | .LONGLONG | .FLOAT | .DOUBLE | .NULLPTR => true
  | _ => false

/-! ## Constant extraction pass (DefineConstantsPass, lines 122-211) -/

/-- First index at which `pat` occurs in `cs` as a contiguous sublist. -/
def findSubIdx (pat cs : List Char) : Option Nat :=
  ((List.range (cs.length + 1)).filter fun i => pat.isPrefixOf (cs.drop i)).head?

/-- Last index at which `pat` occurs in `cs` as a contiguous sublist. -/
def findSubIdxLast (pat cs : List Char) : Option Nat :=
  ((List.range (cs.length + 1)).filter fun i => pat.isPrefixOf (cs.drop i)).getLast?

/-- Models the regex substitution at line 141,
`re.sub(rf".*NAME\s*=\s*(.+);[\n\t\s]*", r"\1", ln)`, for the
single-line `... NAME = value;` raw declaration text the pass reads:
the greedy leading `.*` places the match at the last occurrence of the
declared name, everything up to and including the following `=` and its
surrounding whitespace is dropped, and the greedy `(.+)` keeps the value
up to the last semicolon.  When the shape is absent the text is returned
unchanged (re.sub without a match). -/
def extract_assign (spelling raw : String) : String :=
  let cs := raw.toList
  match findSubIdxLast spelling.toList cs with
  | none => raw
  | some i =>
    let after := (cs.drop (i + spelling.toList.length)).dropWhile Char.isWhitespace
    match after with
    | '=' :: rest =>
      let v := rest.dropWhile Char.isWhitespace
      match findSubIdxLast [';'] v with
      | some j => ⟨v.take j⟩
      | none => raw
    | _ => raw

/-- `get_constant_value` (lines 137-147) applied to the raw source text
of an initializer cursor.  Note the Python `rstrip` argument is the
plain string `"\s\n;"` in which `\s` is not an escape, so the stripped
character set is backslash, `s`, newline and semicolon.  A value
containing a space is a complex expression and yields None. -/
def get_constant_value (spelling raw : String) : Option String :=
  let ln : String :=
    if raw.toList.contains '=' then extract_assign spelling raw
    else ⟨pyRstripSet ['\\', 's', '\n', ';'] raw.toList⟩
  if ln.toList.contains ' ' then none else some ln

/-- Python truthiness of an optional string (None and the empty string
are falsy). -/
def truthy : Option String → Bool
  | none => false
  | some s => !s.toList.isEmpty

/-- The substitution `re.sub(r"^const ", "", spelling)` of line 160. -/
def deconst (s : String) : String :=
  if pyStartsWith s "const " then pyDrop s 6 else s

/-- Models `re.match(r"^operator[^\w]+.*$", spelling)` (line 203): the
spelling starts with `operator` followed by at least one non-word
character. -/
def operatorMatch (s : String) : Bool :=
  pyStartsWith s "operator" &&
    (match s.toList.drop 8 with
     | [] => false
     | c :: _ => !(c.isAlphanum || c = '_'))

/-- An initializer child cursor of a constant declaration: its cursor
kind and the raw source text of its extent (`read_raw_code`, which the
pass reads from the source file, is modelled as node data because the
AST and source text are externally owned). -/
structure ConstChild where
  kind : CursorKind
  raw : String
deriving DecidableEq, Repr

/-- The attributes of a declaration cursor read by
`DefineConstantsPass.visit`: `cSpelling` is `node.c.spelling` (the
MathDefs.h source check), `fqn` is `get_fully_qualified_name(node)`
(provided by the external walkcpp AST wrapper), `canonicalKind` is
`node.type.get_canonical().kind`, `cTypeKind` is `node.c.type.kind`,
and `children` are the initializer cursors searched by
`find_child`/`find_any_child` in document order. -/
structure ConstNode where
  kind : CursorKind
  cSpelling : String
  semanticParentKind : CursorKind
  spelling : String
  fqn : String
  typeSpelling : String
  typeIsConst : Bool
  canonicalKind : TypeKind
  cTypeKind : TypeKind
  children : List ConstChild
deriving DecidableEq, Repr

/-- What one `visit` call produces: the returned descend flag, the lines
written to `_constants.i`, and the lines appended to the `cs_code`
accumulator. -/
structure ConstVisitResult where
  ret : Bool
  iLines : List String
  csLines : List String
deriving DecidableEq, Repr

/-- `DefineConstantsPass.visit` (lines 149-211).  Errors model Python
exceptions escaping the visit (camel_case can raise IndexError on a
segment made empty by doubled underscores). -/
def constantsVisit (node : ConstNode) : Except String ConstVisitResult :=
  if pyEndsWith node.cSpelling "/MathDefs.h" then .ok ⟨false, [], []⟩
  else if node.kind = .VAR_DECL && node.semanticParentKind = .NAMESPACE then
    if pyStartsWith node.fqn "Urho3D::IsFlagSet"
        || pyStartsWith node.fqn "Urho3D::FlagSet"
        || pyStartsWith node.spelling "E_" || pyStartsWith node.spelling "P_" then
      .ok ⟨false, [], []⟩
    else
      match camel_case_string node.spelling with
      | .error e => .error e
      | .ok idiomaticName =>
        if !node.typeIsConst then .ok ⟨false, [], []⟩
        else
          let typeName0 := deconst node.typeSpelling
          let valueAndType : Option String × String :=
            if node.typeSpelling = "const ea::string"
                || node.typeSpelling = "const char*" then
              match node.children.find? (fun c => c.kind = .UNEXPOSED_EXPR) with
              | some e => (get_constant_value node.spelling e.raw, "string")
              | none => (none, typeName0)
            else if is_builtin_type node.canonicalKind then
              match node.children.find? (fun c => c.kind = .INTEGER_LITERAL)
                  <|> node.children.find? (fun c => c.kind = .FLOATING_LITERAL) with
              | some lit =>
                let v0 := get_constant_value node.spelling lit.raw
                if truthy v0 then
                  match v0 with
                  | some v =>
                    let v :=
                      if node.canonicalKind ∈ [TypeKind.CHAR16, .CHAR32,
                          .USHORT, .UINT, .ULONG, .ULONGLONG, .UINT128] then
                        (⟨pyRstripSet ['U', 'u'] v.toList⟩ : String) ++ "U"
                      else if node.canonicalKind = .FLOAT then
                        (⟨pyRstripSet ['F', 'f'] v.toList⟩ : String) ++ "f"
                      else v
                    match builtin_to_cs node.canonicalKind with
                    | some t => (some v, t)
                    | none => (none, typeName0)
                  | none => (none, typeName0)
                else (v0, typeName0)
              | none => (none, typeName0)
            else (none, typeName0)
          let iLine := "%ignore " ++ node.fqn ++ ";\n"
          match valueAndType with
          | (value, typeName) =>
            if truthy value then
              match value with
              | some v =>
                .ok ⟨true, [iLine],
                  ["  public const " ++ typeName ++ " " ++ idiomaticName
                    ++ " = " ++ v ++ ";\n"]⟩
              | none => .ok ⟨true, [iLine], []⟩
            else
              let enumStr := if node.cTypeKind = .ENUM then "enum " else ""
              .ok ⟨true,
                [iLine, "%constant " ++ enumStr ++ typeName ++ " "
                  ++ idiomaticName ++ " = " ++ node.fqn ++ ";\n"], []⟩
  else if node.kind = .CXX_METHOD || node.kind = .FUNCTION_DECL
      || node.kind = .FIELD_DECL || node.kind = .ENUM_CONSTANT_DECL then
    if (node.kind = .CXX_METHOD || node.kind = .FUNCTION_DECL)
        && operatorMatch node.spelling then
      .ok ⟨false, [], []⟩
    else .ok ⟨true, [], []⟩
  else .ok ⟨true, [], []⟩

/-- All visits of one run over the given nodes: concatenated
`_constants.i` lines and `cs_code` appends, first exception aborts. -/
def constantsProcess : List ConstNode → Except String (List String × List String)
  | [] => .ok ([], [])
  | n :: rest =>
    match constantsVisit n with
    | .error e => .error e
    | .ok r =>
      match constantsProcess rest with
      | .error e => .error e
      | .ok (il, cl) => .ok (r.iLines ++ il, r.csLines ++ cl)

/-- One full run of DefineConstantsPass over a tree: `on_begin` opens
`_constants.i` fresh (w+ truncates), the visits write the %ignore and
%constant lines, and `on_end` (lines 131-135) writes the %pragma block
containing the whole `cs_code` list.  `cs_code` (line 124) is a class
attribute, not an instance attribute, so it survives from one run to the
next inside the same process: `csCode0` is its content carried in from
earlier runs, and the second component of the result is its content
after this run. -/
def constantsRun (csCode0 : List String) (nodes : List ConstNode) :
    Except String (String × List String) :=
  match constantsProcess nodes with
  | .error e => .error e
  | .ok (il, cl) =>
    .ok (joinStrings il ++ "%pragma(csharp) modulecode=%\x7b\n"
          ++ joinStrings (csCode0 ++ cl) ++ "%\x7d\n",
      csCode0 ++ cl)

/-- The namespace-scope declaration `static const int kMax = 5;` as seen
by the pass. -/
def kMaxNode : ConstNode :=
  { kind := .VAR_DECL, cSpelling := "kMax", semanticParentKind := .NAMESPACE,
    spelling := "kMax", fqn := "Urho3D::kMax", typeSpelling := "const int",
    typeIsConst := true, canonicalKind := .INT, cTypeKind := .INT,
    children := [{ kind := .INTEGER_LITERAL, raw := "5" }] }

/-- The namespace-scope declaration `static const char* kName = "foo";`
as seen by the pass, with the type spelled the way the tuple at line 166
expects it. -/
def kNameNode : ConstNode :=
  { kind := .VAR_DECL, cSpelling := "kName", semanticParentKind := .NAMESPACE,
    spelling := "kName", fqn := "Urho3D::kName", typeSpelling := "const char*",
    typeIsConst := true, canonicalKind := .POINTER, cTypeKind := .POINTER,
    children := [{ kind := .UNEXPOSED_EXPR, raw := "\"foo\"" }] }

/-- Content of `_constants.i` after the first run over `[kMaxNode]`. -/
def c9_run1_content : String :=
  "%ignore Urho3D::kMax;\n%pragma(csharp) modulecode=%\x7b\n  public const int KMax = 5;\n%\x7d\n"

/-- Content of `_constants.i` after the second run over the same node,
with `cs_code` carried over from the first run. -/
def c9_run2_content : String :=
  "%ignore Urho3D::kMax;\n%pragma(csharp) modulecode=%\x7b\n  public const int KMax = 5;\n  public const int KMax = 5;\n%\x7d\n"

/-- The `cs_code` entries produced by one run over `[kMaxNode]`. -/
def c9_cs_lines : List String := ["  public const int KMax = 5;\n"]

/-! ## Property synthesis pass (DefinePropertiesPass, lines 258-572) -/

/-- One step bound of Python `str.replace(old, new)`: replaces every
non-overlapping occurrence of `pat`, left to right; the fuel starts at
the input length and each step consumes at least one character because
the patterns used by the pass are nonempty. -/
def replaceAllGo (pat repl : List Char) : Nat → List Char → List Char
  | 0, cs => cs
  | _ + 1, [] => []
  | fuel + 1, c :: rest =>
    if pat.isPrefixOf (c :: rest) then
      repl ++ replaceAllGo pat repl fuel ((c :: rest).drop pat.length)
    else c :: replaceAllGo pat repl fuel rest

/-- Python `str.replace(old, new)` for a nonempty `old`. -/
def replaceAll (pat repl cs : List Char) : List Char :=
  if pat.isEmpty then cs else replaceAllGo pat repl cs.length cs

/-- Models the hash-map regex substitutions of lines 473-474
(`re.sub(r"eastl::hash_map<(.*), eastl::hash<.*>, eastl::allocator,
<flag>>", r"eastl::<targetAlias><\1>", s)`) for the single-occurrence
type spellings the pass sees, with the greedy groups placed at the last
possible positions. -/
def sub_hash_map (ordFlag targetAlias : String) (cs : List Char) : List Char :=
  match findSubIdx "eastl::hash_map<".toList cs with
  | none => cs
  | some i =>
    let pre := cs.take i
    let rest := cs.drop (i + 16)
    match findSubIdxLast ", eastl::hash<".toList rest with
    | none => cs
    | some j =>
      let g1 := rest.take j
      let rest2 := rest.drop (j + 14)
      let tailPat := (">, eastl::allocator, " ++ ordFlag ++ ">").toList
      match findSubIdxLast tailPat rest2 with
      | none => cs
      | some k =>
        let afterMatch := rest2.drop (k + tailPat.length)
        pre ++ ("eastl::" ++ targetAlias ++ "<").toList ++ g1 ++ ['>']
          ++ afterMatch

/-- Models the flag-set regex substitution of line 475
(`re.sub(r"Urho3D::FlagSet<(.*), .*>", r"\1", s)`) for the
single-occurrence spellings the pass sees: the wrapped enum type (the
first template argument, with the greedy group ending at the last
comma) replaces the whole instantiation. -/
def sub_flagset (cs : List Char) : List Char :=
  match findSubIdx "Urho3D::FlagSet<".toList cs with
  | none => cs
  | some i =>
    let pre := cs.take i
    let rest := cs.drop (i + 16)
    match findSubIdxLast ['>'] rest with
    | none => cs
    | some j =>
      let inner := rest.take j
      let after := rest.drop (j + 1)
      match findSubIdxLast ", ".toList inner with
      | none => cs
      | some k => pre ++ inner.take k ++ after

/-- The cstype clean-up of lines 471-475, applied to the canonical
spelling of the getter result type before it is spliced into the
`$typemap(cstype, ...)` lookup: allocator-argument collapse, hash-map
alias folding, flag-set unwrap, in that order. -/
def cleanup_cstype (s : String) : String :=
  let cs := replaceAll "eastl::basic_string<char, eastl::allocator>".toList
    "eastl::string".toList s.toList
  let cs := replaceAll ", eastl::allocator>".toList ">".toList cs
  let cs := sub_hash_map "false" "unordered_map" cs
  let cs := sub_hash_map "true" "map" cs
  let cs := sub_flagset cs
  ⟨cs⟩

/-- A clang type as read by the property pass: the declared spelling and
the canonical (desugared) spelling. -/
structure TypeD where
  spelling : String
  canonical : String
deriving DecidableEq, Repr

/-- A member cursor as read by the property pass: the getter checks at
lines 406-449 and the setter predicate at lines 452-463 read exactly
these attributes (`args` are the parameter types in declaration order;
`resultType` is none when the cursor has no result type). -/
structure MethodD where
  kind : CursorKind
  access : Access
  spelling : String
  fqn : String
  isVirtual : Bool := false
  isStatic : Bool := false
  args : List TypeD := []
  resultType : Option TypeD := none
deriving DecidableEq, Repr

/-- The `find_setter` predicate (lines 452-463) for an accepted getter
with property name `attributeName` and result type `getterResult`: the
candidate must be a public method, non-virtual, non-static, named
Set<name>, with exactly one parameter whose DECLARED type spelling
equals the DECLARED spelling of the getter result type (line 462
compares the raw spellings, not the canonical ones). -/
def find_setter (attributeName : String) (getterResult : TypeD)
    (n : MethodD) : Bool :=
  if n.access ≠ .PUBLIC ∨ n.kind ≠ .CXX_METHOD then false
  else if n.isVirtual = false ∧ n.isStatic = false
      ∧ n.spelling = "Set" ++ attributeName then
    match n.args with
    | [p] => p.spelling == getterResult.spelling
    | _ => false
  else false

/-- Modelled from the spec: the claim pairs getter and setter when the
parameter canonical spelling and the getter return canonical spelling
are textually equal after the fixed section 4.5 normalization rules
(allocator collapse, hash-map fold, flag-set unwrap) — the same rules
the code applies only to the cstype clean-up. -/
def spec_setter_matches (attributeName : String) (getterResult : TypeD)
    (n : MethodD) : Bool :=
  if n.access = .PUBLIC ∧ n.kind = .CXX_METHOD ∧ n.isVirtual = false
      ∧ n.isStatic = false ∧ n.spelling = "Set" ++ attributeName then
    match n.args with
    | [p] => cleanup_cstype p.canonical == cleanup_cstype getterResult.canonical
    | _ => false
  else false

/-- Python `"\n".join(lines)`. -/
def joinLines : List String → String
  | [] => ""
  | [s] => s
  | s :: rest => s ++ "\n" ++ joinLines rest

/-- The per-class accumulators of the pass: `self.properties` and
`self.method_attribs`, reset when a class subtree is entered and
flushed when it is left. -/
structure PropState where
  properties : List String
  methodAttribs : List String
deriving DecidableEq, Repr

/-- What one `visit` call of the property pass produces: the updated
accumulators, the strings written to the properties artifact, the
Python return value (none models the bare `return` on the leave path),
and the printed diagnostics. -/
structure PropVisitResult where
  state : PropState
  fileLines : List String
  ret : Option Bool
  diags : List String
deriving DecidableEq, Repr

/-- The name-collision scan of lines 441-444: the first public sibling
whose camel-cased spelling equals the candidate property name rejects
the getter.  `camel_case` itself can raise (spellings whose split
produces an empty segment), which aborts the visit. -/
def collisionScan (attributeName : String) :
    List MethodD → Except String Bool
  | [] => .ok false
  | c :: rest =>
    if c.access = .PUBLIC then
      match camel_case_string c.spelling with
      | .error e => .error e
      | .ok cc =>
        if cc = attributeName then .ok true
        else collisionScan attributeName rest
    else collisionScan attributeName rest

/-- `DefinePropertiesPass.visit` (lines 391-483, the live code): `node`
is the visited cursor, `parentChildren` the children of its parent
(used by the collision scan, the overload count at line 447 and the
setter search at line 465), `st` the current accumulators. -/
def propertiesVisit (action : AstAction) (node : MethodD)
    (parentChildren : List MethodD) (st : PropState) :
    Except String PropVisitResult :=
  if action = .LEAVE then
    if node.kind = .CLASS_DECL ∧ st.properties ≠ [] then
      .ok ⟨st,
        ["%typemap(cscode) " ++ node.fqn ++ " %\x7b\n",
          joinLines st.properties, "\n%\x7d\n",
          joinLines st.methodAttribs, "\n"],
        none, []⟩
    else .ok ⟨st, [], none, []⟩
  else
    let st := if node.kind = .CLASS_DECL then ⟨[], []⟩ else st
    if node.kind ≠ .CXX_METHOD then .ok ⟨st, [], some true, []⟩
    else if node.access ≠ .PUBLIC then .ok ⟨st, [], some true, []⟩
    else if node.isStatic then .ok ⟨st, [], some true, []⟩
    else
      match
        if pyStartsWith node.spelling "Get" then some (pyDrop node.spelling 3)
        else if pyStartsWith node.spelling "Is" then some node.spelling
        else none with
      | none => .ok ⟨st, [], some true, []⟩
      | some attributeName =>
        if node.isVirtual then
          .ok ⟨st, [], some false, ["Ignore " ++ node.fqn ++ ": virtual"]⟩
        else if node.args.length ≠ 0 then
          .ok ⟨st, [], some true, ["Ignore " ++ node.fqn ++ ": parameters"]⟩
        else
          match node.resultType with
          | none =>
            .ok ⟨st, [], some true, ["Ignore " ++ node.fqn ++ ": return type"]⟩
          | some rt =>
            if rt.spelling = "void" then
              .ok ⟨st, [], some true,
                ["Ignore " ++ node.fqn ++ ": return type"]⟩
            else
              match collisionScan attributeName parentChildren with
              | .error e => .error e
              | .ok true =>
                .ok ⟨st, [], some false,
                  ["Ignore " ++ node.fqn ++ ": attr name taken"]⟩
              | .ok false =>
                if (parentChildren.filter
                    fun c => c.spelling = node.spelling).length > 1 then
                  .ok ⟨st, [], some false,
                    ["Ignore " ++ node.fqn ++ ": overloads"]⟩
                else
                  let setter :=
                    parentChildren.find? (find_setter attributeName rt)
                  let cstype := cleanup_cstype rt.canonical
                  let props := st.properties
                    ++ ["  public $typemap(cstype, " ++ cstype ++ ") "
                          ++ attributeName ++ " \x7b",
                        "    get \x7b return " ++ node.spelling
                          ++ "(); \x7d"]
                  let attribs := st.methodAttribs
                    ++ ["%csmethodmodifiers " ++ node.fqn ++ " \"private\";"]
                  match setter with
                  | some s =>
                    .ok ⟨⟨props ++ ["    set \x7b " ++ s.spelling
                            ++ "(value); \x7d", "  \x7d"],
                        attribs ++ ["%csmethodmodifiers " ++ s.fqn
                            ++ " \"private\";"]⟩,
                      [], some true, []⟩
                  | none =>
                    .ok ⟨⟨props ++ ["  \x7d"], attribs⟩, [], some true, []⟩

/-- The `ea::string` alias type: declared spelling differs from the
eastl instantiation it desugars to. -/
def eaStringType : TypeD :=
  { spelling := "ea::string",
    canonical := "eastl::basic_string<char, eastl::allocator>" }

/-- The same canonical type declared through the `eastl::string`
spelling. -/
def eastlStringType : TypeD :=
  { spelling := "eastl::string",
    canonical := "eastl::basic_string<char, eastl::allocator>" }

/-- A setter `void SetName(eastl::string)` whose parameter is declared
through the non-alias spelling. -/
def setNameMethod : MethodD :=
  { kind := .CXX_METHOD, access := .PUBLIC, spelling := "SetName",
    fqn := "Urho3D::Foo::SetName", args := [eastlStringType],
    resultType := some ⟨"void", "void"⟩ }

/-- A virtual getter `virtual int GetHealth()`. -/
def virtualGetHealth : MethodD :=
  { kind := .CXX_METHOD, access := .PUBLIC, spelling := "GetHealth",
    fqn := "Urho3D::Foo::GetHealth", isVirtual := true,
    resultType := some ⟨"int", "int"⟩ }

/-! ## Artifact end-of-scope behaviour (claim C8) -/

/-- `DefinePropertiesPass.on_file_end` (lines 316-320): the per-directory
properties artifact is closed, its size checked, and the file unlinked
when it is empty. -/
def properties_on_file_end (content : String) : Option String :=
  if content = "" then none else some content

/-- `CleanEnumValues.on_end` (lines 594-595): the `_enums.i` artifact is
closed and never deleted, even when empty. -/
def clean_enums_final (content : String) : Option String :=
  some content

/-! ## Event metadata pass (DefineEventsPass, lines 622-665) -/

/-- Python `str.replace("_", "")`. -/
def removeUnderscores (s : String) : String :=
  ⟨s.toList.filter fun c => c ≠ '_'⟩

/-- Models `re_param_name.match` (line 624), the anchored
case-insensitive pattern `URHO3D_PARAM\(([^,]+),\s*([a-z0-9_]+)\);\s*`,
for the macro lines the headers contain: group 1 is the text up to the
first comma, group 2 the following identifier run, and the text must
continue with `);`. -/
def parse_urho3d_param (s : String) : Option (String × String) :=
  let cs := s.toList
  if (cs.take 13).map Char.toLower = "urho3d_param(".toList then
    let rest := cs.drop 13
    let g1 := rest.takeWhile fun c => c ≠ ','
    if g1.isEmpty then none
    else
      match rest.drop g1.length with
      | ',' :: rest2 =>
        let rest3 := rest2.dropWhile Char.isWhitespace
        let g2 := rest3.takeWhile fun c => c.isAlphanum || c = '_'
        if g2.isEmpty then none
        else
          match rest3.drop g2.length with
          | ')' :: ';' :: _ => some (⟨g1⟩, ⟨g2⟩)
          | _ => none
      | _ => none
  else none

/-- A sibling declaration as read by the event pass: cursor kind,
spelling, type spelling, and the raw source texts of its children (the
URHO3D_PARAM lines inside an event namespace). -/
structure EvNode where
  kind : CursorKind
  spelling : String
  typeSpelling : String
  childrenRaw : List String
deriving DecidableEq, Repr

/-- The parameter loop of lines 653-657: each child raw text is matched
against the macro pattern (a failed match raises AttributeError on the
None result at line 655) and the parameter identifier camel-cased. -/
def eventParams : List String → Except String (List String)
  | [] => .ok []
  | raw :: rest =>
    match parse_urho3d_param raw with
    | none => .error "AttributeError: NoneType object has no attribute group"
    | some (_, paramName) =>
      match camel_case_string paramName with
      | .error e => .error e
      | .ok varName =>
        match eventParams rest with
        | .error e => .error e
        | .ok lines =>
          .ok (("        public StringHash " ++ varName
              ++ " = new StringHash(\"" ++ paramName ++ "\");\n") :: lines)

/-- `DefineEventsPass.visit` (lines 639-665): recognition requires a
VAR_DECL of type `const Urho3D::StringHash` whose spelling starts with
`E_` and whose next sibling is a namespace whose lowercased spelling
equals the constant spelling with the prefix dropped, underscores
removed, and lowercased — line 648 lowercases the namespace name but
does not strip its underscores.  Returns the written strings and the
Python return value. -/
def eventsVisit (node : EvNode) (siblings : List EvNode) :
    Except String (List String × Bool) :=
  if node.kind = .VAR_DECL
      ∧ node.typeSpelling = "const Urho3D::StringHash"
      ∧ pyStartsWith node.spelling "E_" then
    match siblings.get? (siblings.indexOf node + 1) with
    | none => .ok ([], false)
    | some next =>
      if next.kind = .NAMESPACE then
        if pyLower next.spelling
            = pyLower (removeUnderscores (pyDrop node.spelling 2)) then
          match eventParams next.childrenRaw with
          | .error e => .error e
          | .ok paramLines =>
            .ok (["    public class " ++ next.spelling ++ "Event \x7b\n"
                    ++ "        private StringHash _event = new StringHash(\""
                    ++ next.spelling ++ "\");\n\n"]
                ++ paramLines
                ++ ["        public " ++ next.spelling ++ "Event() \x7b \x7d\n"
                    ++ "        public static implicit operator StringHash("
                    ++ next.spelling ++ "Event e) \x7b return e._event; \x7d\n"
                    ++ "    \x7d\n"
                    ++ "    public static " ++ next.spelling ++ "Event "
                    ++ next.spelling ++ " = new " ++ next.spelling
                    ++ "Event();\n\n"],
              true)
        else .ok ([], true)
      else .ok ([], true)
  else .ok ([], true)

/-- Modelled from the spec: the claim recognizes the pair when the
namespace name, lowercased WITH underscores stripped, equals the
constant name with the event prefix stripped, underscores stripped, and
lowercased. -/
def spec_event_recognizes (constName nsName : String) : Bool :=
  pyLower (removeUnderscores nsName)
    == pyLower (removeUnderscores (pyDrop constName 2))

/-- The constant `static const StringHash E_SOME_EVENT...` whose
following namespace keeps an underscore in its name. -/
def eSomeEventNode : EvNode :=
  { kind := .VAR_DECL, spelling := "E_SOME_EVENT",
    typeSpelling := "const Urho3D::StringHash", childrenRaw := [] }

/-- A namespace spelled `Some_Event`, which matches the constant
`E_SOME_EVENT` under the spec rule but not under line 648. -/
def someEventNamespace : EvNode :=
  { kind := .NAMESPACE, spelling := "Some_Event", typeSpelling := "",
    childrenRaw := [] }

/-- The constant `E_UPDATE` of a well-formed event pair. -/
def eUpdateNode : EvNode :=
  { kind := .VAR_DECL, spelling := "E_UPDATE",
    typeSpelling := "const Urho3D::StringHash", childrenRaw := [] }

/-- The namespace `Update` following `E_UPDATE`. -/
def updateNamespace : EvNode :=
  { kind := .NAMESPACE, spelling := "Update", typeSpelling := "",
    childrenRaw := [] }

end AutoSwig

namespace AutoSwig

/-! ## Lemmas relating the implementation split to the boundary split -/

theorem specChunks_head (c : Char) (rest : List Char) :
    ∃ t segs, specChunks (c :: rest) = (c :: t) :: segs := by
  induction rest generalizing c with
  | nil => exact ⟨[], [], rfl⟩
  | cons d r2 ih =>
    obtain ⟨t', segs', h⟩ := ih d
    by_cases hu : d.isUpper
    · exact ⟨[], (d :: t') :: segs', by simp [specChunks, h, hu]⟩
    · exact ⟨d :: t', segs', by simp [specChunks, h, hu]⟩

theorem specChunks_cons (c : Char) (rest : List Char) :
    specChunks (c :: rest) = glueChunk [c] (specChunks rest) := by
  cases rest with
  | nil => rfl
  | cons d r2 =>
    obtain ⟨t', segs', h⟩ := specChunks_head d r2
    by_cases hu : d.isUpper <;> simp [specChunks, h, glueChunk, hu]

theorem glueChunk_append (a b : List Char) (S : List (List Char)) :
    glueChunk (a ++ b) S = consFirst a (glueChunk b S) := by
  cases S with
  | nil => rfl
  | cons seg segs =>
    cases seg with
    | nil => rfl
    | cons d t =>
      by_cases hu : d.isUpper <;> simp [glueChunk, consFirst, hu]

theorem splitNoUnderscoreGo_spec (rest : List Char) :
    ∀ acc, splitNoUnderscoreGo acc rest
      = (glueChunk acc (specChunks rest)).map pyLowerChars := by
  induction rest with
  | nil => intro acc; simp [splitNoUnderscoreGo, specChunks, glueChunk]
  | cons c rest' ih =>
    intro acc
    obtain ⟨t, segs, hhead⟩ := specChunks_head c rest'
    by_cases hu : c.isUpper
    · have h1 : splitNoUnderscoreGo acc (c :: rest')
          = pyLowerChars acc :: splitNoUnderscoreGo [c] rest' := by
        simp [splitNoUnderscoreGo, hu]
      rw [h1, ih [c], ← specChunks_cons, hhead]
      simp [glueChunk, hu]
    · have h1 : splitNoUnderscoreGo acc (c :: rest')
          = splitNoUnderscoreGo (acc ++ [c]) rest' := by
        simp [splitNoUnderscoreGo, hu]
      rw [h1, ih (acc ++ [c]), glueChunk_append acc [c],
        ← specChunks_cons, hhead]
      simp [glueChunk, consFirst, hu]

/-- For every underscore-free identifier, the implementation split equals
the boundary split of the spec with every chunk lowercased. -/
theorem splitNoUnderscore_eq_specChunks (cs : List Char) :
    splitNoUnderscore cs = (specChunks cs).map pyLowerChars := by
  cases cs with
  | nil => rfl
  | cons c rest =>
    show splitNoUnderscoreGo [c] rest = _
    rw [splitNoUnderscoreGo_spec rest [c], ← specChunks_cons]

/-! ## Claims C1 and C2 -/

/-- C1: the claim says `camel_case` accepts a pre-split sequence of
segments and maps `["get","max","health"]` to `"GetMaxHealth"`.  The code
cannot: line 66 calls `strip` on the argument before the isinstance
dispatch, so every list argument raises AttributeError.  The string path
(auto-split first) does produce `"GetMaxHealth"`, which documents the
intended result of the broken list path. -/
theorem c1_camel_case_list_raises :
    camel_case (.list ["get", "max", "health"])
        = .error "AttributeError: list object has no attribute strip"
      ∧ camel_case (.str "GetMaxHealth") = .ok (.str "GetMaxHealth")
      ∧ camel_case (.str "get_max_health") = .ok (.str "GetMaxHealth") :=
  ⟨rfl, rfl, rfl⟩

/-- C2 counterexample: `"AB"` contains no underscore and consists
entirely of uppercase letters, yet `split_identifier` returns
`["a","b"]`, not the single-element list `["ab"]` the claim predicts.
The all-uppercase collapse is performed by `camel_case` on its string
argument, not by `split_identifier`. -/
theorem c2_counterexample :
    (['A', 'B'] : List Char).contains '_' = false
      ∧ pyIsUpper ['A', 'B'] = true
      ∧ split_identifier_chars ['A', 'B'] = [['a'], ['b']]
      ∧ split_identifier_chars ['A', 'B'] ≠ [['a', 'b']] := by
  refine ⟨rfl, rfl, rfl, ?_⟩
  decide

/-- C2 (amended): for every underscore-free identifier, including
all-uppercase ones, `split_identifier` starts a new segment at each
uppercase letter after the first character and lowercases every segment
(the boundary split `specChunks`); the all-uppercase single-segment
treatment happens only inside `camel_case`. -/
theorem c2_split_boundary (cs : List Char) (h : cs.contains '_' = false) :
    split_identifier_chars cs = (specChunks cs).map pyLowerChars := by
  unfold split_identifier_chars
  rw [h]
  simp only [Bool.false_eq_true, if_false]
  exact splitNoUnderscore_eq_specChunks cs

/-- C2 witness: the amended theorem applied to the identifier
`"GetMaxHealth"` from the spec examples. -/
theorem c2_witness :
    ("GetMaxHealth".toList.contains '_' = false)
      ∧ split_identifier_chars "GetMaxHealth".toList
          = (specChunks "GetMaxHealth".toList).map pyLowerChars :=
  ⟨rfl, c2_split_boundary "GetMaxHealth".toList rfl⟩

/-! ## Lemmas about the reachability walk -/

theorem subclassLoop_ne_none (recur : String → String → Option PyRes)
    (isKey : String → Bool) (l : List String) (b : String)
    (hrec : ∀ s ∈ l, isKey s = true → recur s b ≠ none) :
    subclassLoop recur isKey l b ≠ none := by
  induction l with
  | nil => simp [subclassLoop]
  | cons s rest ih =>
    by_cases hk : isKey s = true
    · simp only [subclassLoop, hk, if_true]
      rcases hr : recur s b with _ | r
      · exact absurd hr (hrec s (by simp) hk)
      · cases r with
        | ok bb =>
          cases bb
          · exact ih fun t ht hkt => hrec t (by simp [ht]) hkt
          · simp
        | keyError => simp
    · simp only [subclassLoop, hk, if_false]
      exact ih fun t ht hkt => hrec t (by simp [ht]) hkt

/-- With enough fuel (any bound above the rank of the queried class in an
acyclicity certificate) the walk does not run out of fuel. -/
theorem is_subclass_of_ne_none (m : List (String × List String))
    (rank : String → Nat) (hrank : HierRank m rank) :
    ∀ fuel c b, rank c < fuel → is_subclass_of m fuel c b ≠ none := by
  intro fuel
  induction fuel with
  | zero => intro c b h; exact absurd h (by omega)
  | succ f ih =>
    intro c b hc
    simp only [is_subclass_of]
    by_cases hcb : c = b
    · simp [hcb]
    · simp only [hcb, if_false]
      rcases hl : lookupBases m c with _ | bases
      · simp
      · by_cases hb : b ∈ bases
        · simp [hb]
        · simp only [hb, if_false]
          apply subclassLoop_ne_none
          intro s hs hk
          exact ih s b (by have := hrank c s bases hl hs hk; omega)

theorem subclassLoop_ok_true (recur : String → String → Option PyRes)
    (isKey : String → Bool) (l : List String) (b : String)
    (h : subclassLoop recur isKey l b = some (.ok true)) :
    ∃ s ∈ l, isKey s = true ∧ recur s b = some (.ok true) := by
  induction l with
  | nil => simp [subclassLoop] at h
  | cons s rest ih =>
    by_cases hk : isKey s = true
    · simp only [subclassLoop, hk, if_true] at h
      rcases hr : recur s b with _ | r
      · rw [hr] at h; simp at h
      · rw [hr] at h
        cases r with
        | ok bb =>
          cases bb
          · obtain ⟨t, ht, hkt, hrt⟩ := ih h
            exact ⟨t, by simp [ht], hkt, hrt⟩
          · exact ⟨s, by simp, hk, hr⟩
        | keyError => simp at h
    · simp only [subclassLoop, hk, if_false] at h
      obtain ⟨t, ht, hkt, hrt⟩ := ih h
      exact ⟨t, by simp [ht], hkt, hrt⟩

/-- Soundness: whenever the walk answers True, the reachability relation
of the claim holds. -/
theorem is_subclass_of_sound (m : List (String × List String)) :
    ∀ fuel c b, is_subclass_of m fuel c b = some (.ok true) → Reaches m c b := by
  intro fuel
  induction fuel with
  | zero => intro c b h; simp [is_subclass_of] at h
  | succ f ih =>
    intro c b h
    simp only [is_subclass_of] at h
    by_cases hcb : c = b
    · subst hcb; exact .refl c
    · simp only [hcb, if_false] at h
      rcases hl : lookupBases m c with _ | bases
      · rw [hl] at h; simp at h
      · rw [hl] at h
        by_cases hb : b ∈ bases
        · exact .step c b b bases hl hb (.refl b)
        · simp only [hb, if_false] at h
          obtain ⟨s, hs, hk, hrec⟩ := subclassLoop_ok_true _ _ bases b h
          exact .step c s b bases hl hs (ih s b hrec)

theorem subclassLoop_ne_keyError (recur : String → String → Option PyRes)
    (isKey : String → Bool) (l : List String) (b : String)
    (hrec : ∀ s ∈ l, isKey s = true → recur s b ≠ some .keyError) :
    subclassLoop recur isKey l b ≠ some .keyError := by
  induction l with
  | nil => simp [subclassLoop]
  | cons s rest ih =>
    by_cases hk : isKey s = true
    · simp only [subclassLoop, hk, if_true]
      rcases hr : recur s b with _ | r
      · simp
      · cases r with
        | ok bb =>
          cases bb
          · exact ih fun t ht hkt => hrec t (by simp [ht]) hkt
          · simp
        | keyError => exact absurd hr (hrec s (by simp) hk)
    · simp only [subclassLoop, hk, if_false]
      exact ih fun t ht hkt => hrec t (by simp [ht]) hkt

/-- The KeyError of line 231 can only be raised by the top-level call:
the loop recurses only into names that are keys of the dict. -/
theorem is_subclass_of_ne_keyError (m : List (String × List String)) :
    ∀ fuel c b, (lookupBases m c).isSome = true →
      is_subclass_of m fuel c b ≠ some .keyError := by
  intro fuel
  induction fuel with
  | zero => intro c b _; simp [is_subclass_of]
  | succ f ih =>
    intro c b hkey
    simp only [is_subclass_of]
    by_cases hcb : c = b
    · simp [hcb]
    · simp only [hcb, if_false]
      rcases hl : lookupBases m c with _ | bases
      · rw [hl] at hkey; simp at hkey
      · by_cases hb : b ∈ bases
        · simp [hb]
        · simp only [hb, if_false]
          exact subclassLoop_ne_keyError _ _ bases b fun s _ hk => ih s b hk

theorem Reaches_key_of_ne (m : List (String × List String)) {s b : String}
    (h : Reaches m s b) (hne : s ≠ b) : (lookupBases m s).isSome = true := by
  cases h with
  | refl => exact absurd rfl hne
  | step _ _ _ bases hl _ _ => simp [hl]

theorem subclassLoop_complete (recur : String → String → Option PyRes)
    (isKey : String → Bool)
    (hKE : ∀ s b, isKey s = true → recur s b ≠ some .keyError)
    (l : List String) (b s : String) (hmem : s ∈ l) (hkey : isKey s = true)
    (hsome : recur s b ≠ none → recur s b = some (.ok true))
    (hnn : subclassLoop recur isKey l b ≠ none) :
    subclassLoop recur isKey l b = some (.ok true) := by
  induction l with
  | nil => cases hmem
  | cons t rest ih =>
    by_cases hkt : isKey t = true
    · simp only [subclassLoop, hkt, if_true] at hnn ⊢
      rcases hr : recur t b with _ | r
      · rw [hr] at hnn
        exact absurd rfl hnn
      · rw [hr] at hnn
        cases r with
        | ok bb =>
          cases bb
          · rcases List.mem_cons.mp hmem with he | hrest
            · subst he
              have h2 := hsome (by rw [hr]; simp)
              rw [hr] at h2
              simp at h2
            · exact ih hrest hnn
          · rfl
        | keyError => exact absurd hr (hKE t b hkt)
    · simp only [subclassLoop, hkt, if_false] at hnn ⊢
      rcases List.mem_cons.mp hmem with he | hrest
      · subst he; exact absurd hkey hkt
      · exact ih hrest hnn

/-- Completeness: whenever the reachability relation holds and the walk
does not run out of fuel, it answers True. -/
theorem is_subclass_of_complete (m : List (String × List String))
    {c b : String} (h : Reaches m c b) :
    ∀ fuel, is_subclass_of m fuel c b ≠ none →
      is_subclass_of m fuel c b = some (.ok true) := by
  induction h with
  | refl c =>
    intro fuel hnn
    cases fuel with
    | zero => simp [is_subclass_of] at hnn
    | succ f => simp [is_subclass_of]
  | step c s b bases hl hmem hr ih =>
    intro fuel hnn
    cases fuel with
    | zero => simp [is_subclass_of] at hnn
    | succ f =>
      simp only [is_subclass_of] at hnn ⊢
      by_cases hcb : c = b
      · simp [hcb]
      · simp only [hcb, if_false] at hnn ⊢
        rw [hl] at hnn ⊢
        by_cases hb : b ∈ bases
        · simp [hb]
        · simp only [hb, if_false] at hnn ⊢
          have hsb : s ≠ b := fun he => hb (he ▸ hmem)
          have hkey : (lookupBases m s).isSome = true :=
            Reaches_key_of_ne m hr hsb
          exact subclassLoop_complete _ _
            (fun s' b' hk => is_subclass_of_ne_keyError m f s' b' hk)
            bases b s hmem hkey (ih f) hnn

/-- A ranking certificate for the A <- B <- C example hierarchy. -/
theorem hierABC_rank :
    HierRank hierABC fun s => if s = "C" then 1 else 0 := by
  intro c s bases hl hmem hkey
  simp only [hierABC, lookupBases] at hl
  split at hl
  · rename_i hc
    injection hl with hl
    subst hl
    simp only [List.mem_singleton] at hmem
    subst hmem
    subst hc
    decide
  · split at hl
    · rename_i hc2
      injection hl with hl
      subst hl
      simp only [List.mem_singleton] at hmem
      subst hmem
      exact absurd hkey (by decide)
    · cases hl

/-! ## Claims C3 and C10 -/

/-- C3 counterexample: for the recorded hierarchy A (root) <- B <- C the
claim predicts `is_subclass_of(A, C) == false`, but A has no recorded
bases, so it is not a key of `parent_classes`, and the lookup at line 231
raises KeyError instead of returning False. -/
theorem c3_counterexample :
    is_subclass_of hierABC 10 "A" "C" = some .keyError
      ∧ is_subclass_of hierABC 10 "A" "C" ≠ some (.ok false) := by
  refine ⟨rfl, ?_⟩
  decide

/-- C3 (amended): `is_subclass_of(C, A)` and `is_subclass_of(B, A)`
return True; `is_subclass_of(A, C)` raises KeyError (A is not a key)
rather than returning False; and for every class recorded as a key of an
acyclic hierarchy the query answers True (at sufficient recursion depth)
exactly when the claim reachability relation holds: the class equals the
base, the base is a recorded direct base, or some recorded direct base
transitively reaches it. -/
theorem c3_subclass_characterization :
    is_subclass_of hierABC 3 "C" "A" = some (.ok true)
      ∧ is_subclass_of hierABC 3 "B" "A" = some (.ok true)
      ∧ is_subclass_of hierABC 10 "A" "C" = some .keyError
      ∧ ∀ (m : List (String × List String)) (c b : String),
          AcyclicHier m → (lookupBases m c).isSome = true →
          (Reaches m c b ↔
            ∃ fuel, is_subclass_of m fuel c b = some (.ok true)) := by
  refine ⟨rfl, rfl, rfl, ?_⟩
  rintro m c b ⟨rank, hrank⟩ hkey
  constructor
  · intro hr
    refine ⟨rank c + 1, ?_⟩
    exact is_subclass_of_complete m hr (rank c + 1)
      (is_subclass_of_ne_none m rank hrank (rank c + 1) c b (by omega))
  · rintro ⟨fuel, h⟩
    exact is_subclass_of_sound m fuel c b h

/-- C3 witness: the characterisation applied to the concrete hierarchy,
class C and base A. -/
theorem c3_witness : Reaches hierABC "C" "A" :=
  (c3_subclass_characterization.2.2.2 hierABC "C" "A"
    ⟨fun s => if s = "C" then 1 else 0, hierABC_rank⟩ rfl).mpr ⟨3, rfl⟩

/-- C10: for every finite acyclic recorded hierarchy and every class
recorded as a key, the reachability walk terminates for every base name:
beyond some finite recursion depth the walk returns an answer instead of
recursing unboundedly.  The walk carries no visited set, so the bound
comes from the acyclicity certificate alone. -/
theorem c10_terminates (m : List (String × List String)) (c b : String)
    (hacy : AcyclicHier m) (hkey : (lookupBases m c).isSome = true) :
    ∃ fuel, ∀ g, fuel ≤ g → is_subclass_of m g c b ≠ none := by
  obtain ⟨rank, hrank⟩ := hacy
  exact ⟨rank c + 1, fun g hg =>
    is_subclass_of_ne_none m rank hrank g c b (by omega)⟩

/-- C10 witness: termination on the concrete A <- B <- C hierarchy for
class C and base A. -/
theorem c10_witness :
    ∃ fuel, ∀ g, fuel ≤ g → is_subclass_of hierABC g "C" "A" ≠ none :=
  c10_terminates hierABC "C" "A"
    ⟨fun s => if s = "C" then 1 else 0, hierABC_rank⟩ rfl

/-! ## String length helpers -/

theorem str_length_append (a b : String) :
    (a ++ b).length = a.length + b.length := by
  cases a
  cases b
  simp [String.length, String.append]

theorem str_append_assoc (a b c : String) :
    a ++ b ++ c = a ++ (b ++ c) := by
  rcases a with ⟨d1⟩
  rcases b with ⟨d2⟩
  rcases c with ⟨d3⟩
  exact congrArg String.mk (List.append_assoc d1 d2 d3)

theorem str_empty_append (a : String) : "" ++ a = a := by
  rcases a with ⟨d⟩
  rfl

theorem joinStrings_append (l1 l2 : List String) :
    joinStrings (l1 ++ l2) = joinStrings l1 ++ joinStrings l2 := by
  induction l1 with
  | nil => simp [joinStrings, str_empty_append]
  | cons s rest ih => simp [joinStrings, ih, str_append_assoc]

/-! ## Claims C4 and C9 -/

/-- C4 counterexample: the constant pass derives the emitted name by
`camel_case(node.spelling)` and never strips the `k` prefix, so
`static const int kMax = 5;` is emitted with name `KMax`; the claim
predicts name `Max`. -/
theorem c4_counterexample :
    camel_case_string "kMax" = .ok "KMax"
      ∧ constantsVisit kMaxNode
          = .ok ⟨true, ["%ignore Urho3D::kMax;\n"],
              ["  public const int KMax = 5;\n"]⟩
      ∧ ("  public const int KMax = 5;\n" : String)
          ≠ "  public const int Max = 5;\n" := by
  refine ⟨rfl, rfl, ?_⟩
  decide

/-- C4 (amended): `static const int kMax = 5;` at namespace scope is
emitted as a native typed constant with value 5 and `static const char*
kName = "foo";` (with the type spelled as the tuple at line 166 expects)
as a string constant with value "foo", and both original symbols get an
%ignore directive; the idiomatic names are `KMax`/`KName` — camel-casing
the full spelling, with no prefix dropped. -/
theorem c4_constants_emission :
    constantsVisit kMaxNode
        = .ok ⟨true, ["%ignore Urho3D::kMax;\n"],
            ["  public const int KMax = 5;\n"]⟩
      ∧ constantsVisit kNameNode
          = .ok ⟨true, ["%ignore Urho3D::kName;\n"],
              ["  public const string KName = \"foo\";\n"]⟩ :=
  ⟨rfl, rfl⟩

/-- C9 counterexample: running the constant pass twice over the same
single-declaration tree inside one process produces different
`_constants.i` contents, because the `cs_code` accumulator is a class
attribute that survives the first run: the second run emits the constant
line twice. -/
theorem c9_counterexample :
    constantsRun [] [kMaxNode] = .ok (c9_run1_content, c9_cs_lines)
      ∧ constantsRun c9_cs_lines [kMaxNode]
          = .ok (c9_run2_content, c9_cs_lines ++ c9_cs_lines)
      ∧ c9_run1_content ≠ c9_run2_content := by
  refine ⟨rfl, rfl, ?_⟩
  decide

/-- C9 (amended): the pipeline is not run-to-run deterministic: each run
of the constant pass is a function of the tree and of the class-level
`cs_code` state carried over from earlier runs, and whenever the first
run extracted at least one literal constant the second run over the
unchanged tree produces a different `_constants.i` (its managed-code
block contains the carried-over lines again, duplicated). -/
theorem c9_second_run_differs (nodes : List ConstNode)
    (out1 out2 : String × List String)
    (h1 : constantsRun [] nodes = .ok out1)
    (h2 : constantsRun out1.2 nodes = .ok out2)
    (hne : (joinStrings out1.2).length ≠ 0) :
    out1.1 ≠ out2.1 := by
  rcases hp : constantsProcess nodes with e | ⟨il, cl⟩
  · simp only [constantsRun, hp] at h1
    simp at h1
  · simp only [constantsRun, hp] at h1
    rcases out1 with ⟨c1, l1⟩
    injection h1 with h1
    injection h1 with h1a h1b
    subst h1a
    subst h1b
    simp only [constantsRun, hp] at h2
    rcases out2 with ⟨c2, l2⟩
    injection h2 with h2
    injection h2 with h2a h2b
    subst h2a
    subst h2b
    simp only [List.nil_append] at hne
    intro heq
    have hlen := congrArg String.length heq
    simp only [List.nil_append, str_length_append, joinStrings_append]
      at hlen
    omega

/-! ## Claims C5, C6 and C8 -/

/-- C5 counterexample: a setter whose parameter is declared
`eastl::string` against a getter returning the alias `ea::string`.  The
types have the same canonical spelling, `eastl::basic_string<char,
eastl::allocator>`, which the section 4.5 rules canonicalize to
`eastl::string` on both sides, so the claim says the pair matches; but
line 462 compares the raw declared spellings `eastl::string` and
`ea::string`, so `find_setter` rejects the pair. -/
theorem c5_counterexample :
    spec_setter_matches "Name" eaStringType setNameMethod = true
      ∧ find_setter "Name" eaStringType setNameMethod = false :=
  ⟨rfl, rfl⟩

/-- C5 (amended): an accepted getter is paired with a setter exactly
when the setter is public, a method, non-virtual, non-static, named
Set<PropertyName> with exactly one parameter, and that parameter
DECLARED type spelling is textually equal to the getter DECLARED return
type spelling; the canonical spellings and the fixed canonicalization
rules play no role in the pairing (they are used only for the cstype
that is spliced into the emitted typemap lookup). -/
theorem c5_find_setter_characterization (attributeName : String)
    (getterResult : TypeD) (n : MethodD) :
    find_setter attributeName getterResult n = true ↔
      (n.access = .PUBLIC ∧ n.kind = .CXX_METHOD ∧ n.isVirtual = false
        ∧ n.isStatic = false ∧ n.spelling = "Set" ++ attributeName
        ∧ ∃ p, n.args = [p] ∧ p.spelling = getterResult.spelling) := by
  unfold find_setter
  split_ifs with h1 h2
  · constructor
    · intro h; cases h
    · rintro ⟨ha, hk, -⟩
      rcases h1 with h1 | h1
      · exact absurd ha h1
      · exact absurd hk h1
  · push_neg at h1
    obtain ⟨ha, hk⟩ := h1
    obtain ⟨hv, hs, hsp⟩ := h2
    rcases harg : n.args with _ | ⟨p, rest⟩
    · simp [harg, ha, hk, hv, hs, hsp]
    · rcases rest with _ | ⟨q, rest2⟩
      · simp [harg, ha, hk, hv, hs, hsp, beq_iff_eq]
      · simp [harg, ha, hk, hv, hs, hsp]
  · push_neg at h1
    constructor
    · intro h; cases h
    · rintro ⟨-, -, hv, hs, hsp, -⟩
      exact h2 ⟨hv, hs, hsp⟩

/-- C6: a public, non-static, zero-parameter method named with prefix
Get or Is that is virtual is rejected by the property pass with exactly
one diagnostic and no property appended; the visit returns normally
with False (pruning only this pass on this subtree), so the traversal
of other declarations continues. -/
theorem c6_virtual_getter_rejected (node : MethodD)
    (parentChildren : List MethodD) (st : PropState)
    (hkind : node.kind = .CXX_METHOD) (hacc : node.access = .PUBLIC)
    (hstatic : node.isStatic = false)
    (hname : pyStartsWith node.spelling "Get" = true
      ∨ pyStartsWith node.spelling "Is" = true)
    (hargs : node.args = []) (hvirt : node.isVirtual = true) :
    propertiesVisit .ENTER node parentChildren st
      = .ok ⟨st, [], some false, ["Ignore " ++ node.fqn ++ ": virtual"]⟩ := by
  rcases hname with hget | his
  · simp [propertiesVisit, hkind, hacc, hstatic, hvirt, hget]
  · by_cases hget : pyStartsWith node.spelling "Get" = true
    · simp [propertiesVisit, hkind, hacc, hstatic, hvirt, hget]
    · simp [propertiesVisit, hkind, hacc, hstatic, hvirt, hget, his]

/-- C6 witness: the rejection applied to the concrete virtual getter
`virtual int GetHealth()`. -/
theorem c6_witness :
    propertiesVisit .ENTER virtualGetHealth [virtualGetHealth] ⟨[], []⟩
      = .ok ⟨⟨[], []⟩, [], some false,
          ["Ignore Urho3D::Foo::GetHealth: virtual"]⟩ :=
  c6_virtual_getter_rejected virtualGetHealth [virtualGetHealth] ⟨[], []⟩
    rfl rfl rfl (Or.inl rfl) rfl rfl

/-- C8 counterexample: a run in which no recorded class reaches
Urho3D::RefCounted leaves `_refcounted.i` as an existing zero-byte
artifact; DefineRefCountedPass.on_end closes the file with no empty-file
check, so the claim that every empty artifact is deleted fails. -/
theorem c8_counterexample :
    refcounted_content [("B", ["A"])] 5 = ""
      ∧ refcounted_final [("B", ["A"])] 5 = some ""
      ∧ refcounted_final [("B", ["A"])] 5 ≠ none := by
  refine ⟨rfl, rfl, ?_⟩
  decide

/-- C8 (amended): only the per-directory properties artifacts are
deleted when they end up empty (`on_file_end` stats the file and
unlinks a zero-byte one, and only then); `_enums.i` and `_refcounted.i`
are closed without that check and remain in place even when empty. -/
theorem c8_empty_artifact_policy :
    (∀ content : String,
        properties_on_file_end content = none ↔ content = "")
      ∧ (∀ content : String, clean_enums_final content = some content)
      ∧ (∀ m fuel, refcounted_final m fuel ≠ none) := by
  refine ⟨?_, fun content => rfl, fun m fuel => by simp [refcounted_final]⟩
  intro content
  unfold properties_on_file_end
  split_ifs with h
  · simp [h]
  · simp [h]

/-! ## Claim C7 -/

/-- C7 counterexample: for the constant `E_SOME_EVENT` followed by the
namespace `Some_Event` the claim rule (strip underscores from the
lowercased namespace name) matches — both sides normalize to
`someevent` — but line 648 lowercases the namespace name without
stripping its underscores (`some_event` vs `someevent`), so the pass
emits no event descriptor. -/
theorem c7_counterexample :
    spec_event_recognizes "E_SOME_EVENT" "Some_Event" = true
      ∧ eventsVisit eSomeEventNode [eSomeEventNode, someEventNamespace]
          = .ok ([], true) :=
  ⟨rfl, rfl⟩

/-- C7 (amended): for a namespace-scope constant of the hashed-string
type with the reserved event prefix, an event descriptor is emitted iff
the next sibling declaration is a namespace whose name, lowercased but
with its underscores KEPT, equals the constant name with the prefix
stripped, underscores stripped, and lowercased (shown here for
namespaces without parameter children; parameter parsing failures
raise instead of emitting). -/
theorem c7_event_recognition (node next : EvNode) (siblings : List EvNode)
    (hkind : node.kind = .VAR_DECL)
    (htype : node.typeSpelling = "const Urho3D::StringHash")
    (hpre : pyStartsWith node.spelling "E_" = true)
    (hnext : siblings.get? (siblings.indexOf node + 1) = some next)
    (hchildren : next.childrenRaw = []) :
    (∃ ls, eventsVisit node siblings = .ok (ls, true) ∧ ls ≠ []) ↔
      (next.kind = .NAMESPACE
        ∧ pyLower next.spelling
            = pyLower (removeUnderscores (pyDrop node.spelling 2))) := by
  unfold eventsVisit
  rw [if_pos ⟨hkind, htype, hpre⟩, hnext]
  dsimp only
  by_cases hns : next.kind = .NAMESPACE
  · rw [if_pos hns]
    by_cases heq : pyLower next.spelling
        = pyLower (removeUnderscores (pyDrop node.spelling 2))
    · rw [if_pos heq, hchildren]
      constructor
      · intro _
        exact ⟨hns, heq⟩
      · intro _
        refine ⟨_, rfl, ?_⟩
        simp
    · rw [if_neg heq]
      simp only [Except.ok.injEq, Prod.mk.injEq]
      constructor
      · rintro ⟨ls, ⟨hl, -⟩, hne⟩
        exact absurd hl.symm hne
      · rintro ⟨-, h⟩
        exact absurd h heq
  · rw [if_neg hns]
    simp only [Except.ok.injEq, Prod.mk.injEq]
    constructor
    · rintro ⟨ls, ⟨hl, -⟩, hne⟩
      exact absurd hl.symm hne
    · rintro ⟨h, -⟩
      exact absurd h hns

/-- C7 witness: the recognition applied to the concrete pair
`E_UPDATE` / namespace `Update`, which is emitted. -/
theorem c7_witness :
    ∃ ls, eventsVisit eUpdateNode [eUpdateNode, updateNamespace]
        = .ok (ls, true) ∧ ls ≠ [] :=
  (c7_event_recognition eUpdateNode updateNamespace
      [eUpdateNode, updateNamespace] rfl rfl rfl rfl rfl).mpr ⟨rfl, rfl⟩

/-- C9 witness: the general theorem applied to the two concrete runs
over the `kMax` declaration. -/
theorem c9_witness :
    constantsRun [] [kMaxNode] = .ok (c9_run1_content, c9_cs_lines)
      ∧ constantsRun (c9_run1_content, c9_cs_lines).2 [kMaxNode]
          = .ok (c9_run2_content, c9_cs_lines ++ c9_cs_lines)
      ∧ (joinStrings (c9_run1_content, c9_cs_lines).2).length ≠ 0
      ∧ (c9_run1_content, c9_cs_lines).1
          ≠ (c9_run2_content, c9_cs_lines ++ c9_cs_lines).1 :=
  ⟨rfl, rfl, by decide,
    c9_second_run_differs [kMaxNode] (c9_run1_content, c9_cs_lines)
      (c9_run2_content, c9_cs_lines ++ c9_cs_lines) rfl rfl (by decide)⟩

end AutoSwig
